import Mathlib

/-!
Verification of the interactive MKV track editor (`mkv_edit.py`).

The Python program is embedded shallowly:

* a Python track dict becomes the `Track` structure; the sparse `properties`
  mapping becomes `TrackProps`, where `none` models an absent key,
  and for `track_name` the value `some none` models a key that is present
  with the value `None` (JSON `null`);
* `str(n)` on a track id becomes `natStr`, a decimal printer;
* interactive loops become functions consuming an explicit list of the
  successive `input()` results (already containing the raw lines; the
  functions apply the same `.strip()`/`.lower()` normalisations the source
  applies), returning `none` when the input list is exhausted while the
  loop still demands a line;
* Python `int(...)` on a stripped token becomes `pyInt?` (optional sign,
  ASCII digits, single underscores between digits);
* the in-place `list.sort(key=lambda t: t['id'])` (a stable sort) becomes
  `List.insertionSort` by id, which is likewise stable;
* the Python string methods `.strip()`, `.lower()`, `.split(',')`,
  slicing `[:k]` and `','.join(...)` become the code-point-level functions
  `pyStrip`, `pyLower`, `pySplitComma`, `pyTake` and `pyJoinComma`
  (ASCII behaviour, which is what the prompts compare against).
-/

/-! ### Python string primitives -/

/-- Python `s.strip()` (ASCII whitespace). -/
def pyStrip (s : String) : String :=
  String.mk (((s.data.dropWhile Char.isWhitespace).reverse.dropWhile Char.isWhitespace).reverse)

/-- Python `s.lower()` (ASCII letters). -/
def pyLower (s : String) : String :=
  String.mk (s.data.map Char.toLower)

/-- Helper for `pySplitComma`: `acc` holds the current field reversed. -/
def pySplitCommaAux : List Char → List Char → List String
  | [], acc => [String.mk acc.reverse]
  | c :: cs, acc =>
    if c = ',' then String.mk acc.reverse :: pySplitCommaAux cs []
    else pySplitCommaAux cs (c :: acc)

/-- Python `s.split(',')`. -/
def pySplitComma (s : String) : List String :=
  pySplitCommaAux s.data []

/-- Python `s[:k]` (slicing by code points). -/
def pyTake (s : String) (k : Nat) : String :=
  String.mk (s.data.take k)

/-- Python `','.join(l)`. -/
def pyJoinComma : List String → String
  | [] => ""
  | x :: xs => xs.foldl (fun acc y => acc ++ "," ++ y) x

inductive TrackType where
  | video
  | audio
  | subtitles
  deriving DecidableEq

structure TrackProps where
  track_name : Option (Option String)
  default_track : Option Bool
  language : Option String
  deriving DecidableEq

structure Track where
  id : Nat
  type : TrackType
  codec : String
  props : TrackProps
  deriving DecidableEq

/-! ### Decimal printing of track ids (Python `str(t['id'])`) -/

/-- Fuel-driven accumulator loop producing the decimal digits of `n`
in front of `acc`.  The fuel is always at least `n + 1`, which is enough. -/
def natStrAux : Nat → Nat → List Char → List Char
  | 0, _, acc => acc
  | fuel + 1, n, acc =>
    if n < 10 then Nat.digitChar (n % 10) :: acc
    else natStrAux fuel (n / 10) (Nat.digitChar (n % 10) :: acc)

/-- Decimal representation of a natural number, as Python `str` prints it. -/
def natStr (n : Nat) : String :=
  String.mk (natStrAux (n + 1) n [])

/-! ### Command Synthesizer (`build_mkvmerge_command`, lines 278-325) -/

/-- The inclusion filter flag for each track type. -/
def inclFlag : TrackType → String
  | TrackType.video => "--video-tracks"
  | TrackType.audio => "--audio-tracks"
  | TrackType.subtitles => "--subtitle-tracks"

/-- The explicit exclusion flag for each track type. -/
def exclFlag : TrackType → String
  | TrackType.video => "--no-video"
  | TrackType.audio => "--no-audio"
  | TrackType.subtitles => "--no-subtitles"

/-- `[str(t['id']) for t in tracks if t['type'] == ty]`. -/
def typeIds (ty : TrackType) (tracks : List Track) : List String :=
  (tracks.filter (fun t => t.type == ty)).map (fun t => natStr t.id)

/-- The track selection arguments emitted for one track type:
`--<ty>-tracks <ids>` when `final_tracks` has tracks of that type,
`--no-<ty>` when it has none but the original file had some, else nothing. -/
def selectionArgs (ty : TrackType) (final_tracks original_tracks : List Track) :
    List String :=
  let ids := typeIds ty final_tracks
  if ids = [] then
    if original_tracks.any (fun t => t.type == ty) then [exclFlag ty] else []
  else
    [inclFlag ty, pyJoinComma ids]

/-- The `--track-name` arguments for one track (lines 309-313):
a set flag when the `track_name` key holds a string, nothing when the key is
present with value `None`, a clear flag (`id:`) when the key is absent. -/
def trackNameArgs (track : Track) : List String :=
  match track.props.track_name with
  | some (some name) => ["--track-name", natStr track.id ++ ":" ++ name]
  | some none => []
  | none => ["--track-name", natStr track.id ++ ":"]

/-- The `--default-track` arguments for one track (lines 316-320):
emitted exactly when the `default_track` key is present. -/
def trackDefaultArgs (track : Track) : List String :=
  match track.props.default_track with
  | some b => ["--default-track", natStr track.id ++ ":" ++ (if b then "1" else "0")]
  | none => []

/-- All per-track property arguments for one track. -/
def trackPropArgs (track : Track) : List String :=
  trackNameArgs track ++ trackDefaultArgs track

/-- `build_mkvmerge_command` (lines 278-325).  `original_tracks` is the
`tracks` array of the original probe data. -/
def build_mkvmerge_command (input_filepath output_filepath : String)
    (final_tracks : List Track) (original_tracks : List Track) : List String :=
  ["mkvmerge", "-q", "-o", output_filepath]
    ++ selectionArgs TrackType.video final_tracks original_tracks
    ++ selectionArgs TrackType.audio final_tracks original_tracks
    ++ selectionArgs TrackType.subtitles final_tracks original_tracks
    ++ final_tracks.flatMap trackPropArgs
    ++ [input_filepath]

/-! ### Track Presenter (`display_tracks`, lines 40-77) -/

def w_codec : Nat := 18

def w_name : Nat := 30

/-- Line 69: `codec_orig[:w_codec-3] + "..." if len(codec_orig) > w_codec else codec_orig`. -/
def codec_display (codec_orig : String) : String :=
  if codec_orig.length > w_codec then pyTake codec_orig (w_codec - 3) ++ "..." else codec_orig

/-- Line 70: `name_orig[:w_name-3] + "..." if len(name_orig) > w_name else name_orig`. -/
def name_display (name_orig : String) : String :=
  if name_orig.length > w_name then pyTake name_orig (w_name - 3) ++ "..." else name_orig

/-! ### Python `int()` on stripped tokens -/

/-- Digits of a Python integer literal after the first digit: ASCII digits
with single underscores allowed between digits. -/
def digitsVal? : List Char → Nat → Option Nat
  | [], acc => some acc
  | '_' :: c :: cs, acc =>
    if c.isDigit then digitsVal? cs (acc * 10 + (c.toNat - 48)) else none
  | c :: cs, acc =>
    if c.isDigit then digitsVal? cs (acc * 10 + (c.toNat - 48)) else none

/-- An unsigned decimal literal: at least one digit. -/
def pyNatDigits? : List Char → Option Nat
  | [] => none
  | c :: cs => if c.isDigit then digitsVal? cs (c.toNat - 48) else none

/-- Python `int(s)` for an already-stripped string `s` (ASCII decimal form):
`some` the value, or `none` when `int` would raise `ValueError`. -/
def pyInt? (s : String) : Option Int :=
  match s.data with
  | '+' :: cs => (pyNatDigits? cs).map (fun n => (n : Int))
  | '-' :: cs => (pyNatDigits? cs).map (fun n => -(n : Int))
  | cs => (pyNatDigits? cs).map (fun n => (n : Int))

/-! ### Selection Engine (`select_tracks_to_keep`, lines 79-202) -/

/-- `list(range(start, stop))` over `Int`. -/
def intRange (start stop : Int) : List Int :=
  (List.range (stop - start).toNat).map (fun k : Nat => start + (k : Int))

/-- One attempt at parsing a (already `.strip()`-ed) selection line for a
group whose display numbers are `start, ..., stop - 1` (lines 124-138):
`some indices` when the input is accepted, `none` when the whole line is
rejected and the prompt is re-issued. -/
def parse_group_input (start stop : Int) (raw : String) : Option (List Int) :=
  if pyLower raw = "all" then some (intRange start stop)
  else if pyLower raw = "none" ∨ raw = "" then some []
  else
    match (pySplitComma raw).mapM (fun x => pyInt? (pyStrip x)) with
    | none => none
    | some vals =>
      if vals.all (fun v => decide (start ≤ v ∧ v < stop)) then some vals else none

/-- The `while True:` prompt loop of one group (lines 111-146): consume raw
input lines until one parses, then look each selected display number up in
the display-number map `m` (`track_map_to_original_data`). -/
def run_group (m : Int → Option Track) (start stop : Int) :
    List String → Option (List Track × List String)
  | [] => none
  | raw :: rest =>
    match parse_group_input start stop (pyStrip raw) with
    | some indices => some (indices.filterMap m, rest)
    | none => run_group m start stop rest

/-- The enumeration order display numbers are assigned in (lines 91, 104,
155): video tracks first, then audio tracks, then subtitle tracks. -/
def orderedTracks (all_tracks : List Track) : List Track :=
  (all_tracks.filter (fun t => t.type == TrackType.video))
    ++ (all_tracks.filter (fun t => t.type == TrackType.audio))
    ++ (all_tracks.filter (fun t => t.type == TrackType.subtitles))

/-- The dict `track_map_to_original_data` built by lines 85-108 and 155-159:
display number `k` maps to the `k`-th track (1-based) of the video tracks,
then the audio tracks, then the subtitle tracks. -/
def track_map (all_tracks : List Track) (k : Int) : Option Track :=
  if 1 ≤ k then (orderedTracks all_tracks)[(k - 1).toNat]? else none

/-- `select_tracks_to_keep` (lines 79-202): all video tracks are kept with no
prompt; the audio group then the subtitle group each consume input lines
when non-empty; the result is sorted by id (line 201). -/
def select_tracks_to_keep (all_tracks : List Track) (inputs : List String) :
    Option (List Track) :=
  let video_tracks := all_tracks.filter (fun t => t.type == TrackType.video)
  let audio_tracks := all_tracks.filter (fun t => t.type == TrackType.audio)
  let subtitle_tracks := all_tracks.filter (fun t => t.type == TrackType.subtitles)
  let m := track_map all_tracks
  let audio_start : Int := 1 + video_tracks.length
  let audio_stop : Int := audio_start + audio_tracks.length
  let sub_start : Int := audio_stop
  let sub_stop : Int := sub_start + subtitle_tracks.length
  match (if audio_tracks.isEmpty then some ([], inputs)
         else run_group m audio_start audio_stop inputs) with
  | none => none
  | some (audio_sel, rest1) =>
    match (if subtitle_tracks.isEmpty then some ([], rest1)
           else run_group m sub_start sub_stop rest1) with
    | none => none
    | some (subtitle_sel, _) =>
      some (List.insertionSort (fun a b => a.id ≤ b.id)
        (video_tracks ++ audio_sel ++ subtitle_sel))

/-! ### Property Editor (`modify_track_properties`, lines 204-276) -/

/-- Lines 243-251: apply one (raw) answer to the new-name prompt to a track:
`-` deletes the `track_name` key, a non-empty answer sets it, an empty
answer leaves the track unchanged. -/
def applyNameInput (t : Track) (inp : String) : Track :=
  let new_name_input := pyStrip inp
  if new_name_input = "-" then
    { t with props := { t.props with track_name := none } }
  else if new_name_input ≠ "" then
    { t with props := { t.props with track_name := some (some new_name_input) } }
  else t

/-- Set the `default_track` property key of a track to an explicit value. -/
def setDefaultProp (t : Track) (b : Bool) : Track :=
  { t with props := { t.props with default_track := some b } }

/-- The clearing pass of lines 260-264: every track of type `ty` other than
position `idx` that has a `default_track` key gets it set to `False`;
`i` is the position of the head of the remaining list. -/
def clearOthers (ty : TrackType) (idx : Nat) : Nat → List Track → List Track
  | _, [] => []
  | i, t :: ts =>
    (if i ≠ idx ∧ t.type = ty ∧ (t.props.default_track).isSome
     then setDefaultProp t false else t) :: clearOthers ty idx (i + 1) ts

/-- Lines 253-267: apply one (raw) answer to the default-flag prompt for the
track at position `idx`: `y` sets its flag true and clears same-type
siblings, `n` sets it false, anything else leaves the list unchanged. -/
def applyDefaultInput (tracks : List Track) (idx : Nat) (inp : String) :
    List Track :=
  match tracks[idx]? with
  | none => tracks
  | some sel =>
    let s := pyLower (pyStrip inp)
    if s = "y" then clearOthers sel.type idx 0 (tracks.set idx (setDefaultProp sel true))
    else if s = "n" then tracks.set idx (setDefaultProp sel false)
    else tracks

/-- The `while True:` loop of lines 215-276 over the working track list,
consuming raw input lines: a line `f` finishes, an unparseable or
out-of-range line re-prompts, and a valid 1-based position consumes a
name answer and - for audio/subtitle tracks - a default-flag answer. -/
def edit_loop : List Track → List String → Option (List Track)
  | _, [] => none
  | tracks, cmd :: rest =>
    if pyLower (pyStrip cmd) = "f" then some tracks
    else
      match pyInt? (pyStrip cmd) with
      | none => edit_loop tracks rest
      | some n =>
        if 0 ≤ n - 1 ∧ n - 1 < (tracks.length : Int) then
          match rest with
          | [] => none
          | nameInp :: rest2 =>
            let idx := (n - 1).toNat
            match tracks[idx]? with
            | none => none
            | some sel =>
              let tracks1 := tracks.set idx (applyNameInput sel nameInp)
              if sel.type = TrackType.audio ∨ sel.type = TrackType.subtitles then
                match rest2 with
                | [] => none
                | defInp :: rest3 => edit_loop (applyDefaultInput tracks1 idx defInp) rest3
              else edit_loop tracks1 rest2
        else edit_loop tracks rest

/-- `modify_track_properties` (lines 204-276): an empty track list or a
first answer other than `y` returns the list unchanged; otherwise the edit
loop runs until the user enters `f`. -/
def modify_track_properties (tracks : List Track) (inputs : List String) :
    Option (List Track) :=
  if tracks.isEmpty then some tracks
  else
    match inputs with
    | [] => none
    | choice :: rest =>
      if pyLower (pyStrip choice) = "y" then edit_loop tracks rest else some tracks

/-- The per-type default-flag count the invariant claims speak about. -/
def defaultCount (ty : TrackType) (tracks : List Track) : Nat :=
  tracks.countP (fun t => t.type == ty && t.props.default_track == some true)

/-! ### Facts about the decimal printer -/

theorem digitChar_isDigit {d : Nat} (h : d < 10) : (Nat.digitChar d).isDigit = true := by
  interval_cases d <;> decide

theorem digitChar_toNat {d : Nat} (h : d < 10) : (Nat.digitChar d).toNat = 48 + d := by
  interval_cases d <;> decide

/-- Reading a digit string back as a number (used to show `natStr` is injective). -/
def digitsToNat (ds : List Char) : Nat :=
  ds.foldl (fun a c => a * 10 + (c.toNat - 48)) 0

theorem natStrAux_spec : ∀ fuel n : Nat, n < fuel → ∀ acc : List Char,
    ∃ ds, natStrAux fuel n acc = ds ++ acc ∧ ds ≠ [] ∧
      (∀ c ∈ ds, c.isDigit = true) ∧ digitsToNat ds = n := by
  intro fuel
  induction fuel with
  | zero => intro n hn; omega
  | succ fuel ih =>
    intro n hn acc
    by_cases h10 : n < 10
    · refine ⟨[Nat.digitChar (n % 10)], by simp [natStrAux, h10], by simp, ?_, ?_⟩
      · intro c hc
        simp only [List.mem_singleton] at hc
        subst hc
        exact digitChar_isDigit (Nat.mod_lt _ (by omega))
      · have hmod : n % 10 = n := Nat.mod_eq_of_lt h10
        have hd : (Nat.digitChar (n % 10)).toNat = 48 + n % 10 :=
          digitChar_toNat (Nat.mod_lt _ (by omega))
        simp only [digitsToNat, List.foldl_cons, List.foldl_nil]
        omega
    · have hpos : 0 < n := by omega
      have hlt : n / 10 < n := Nat.div_lt_self hpos (by omega)
      obtain ⟨ds, heq, hne, hdig, hval⟩ :=
        ih (n / 10) (by omega) (Nat.digitChar (n % 10) :: acc)
      refine ⟨ds ++ [Nat.digitChar (n % 10)], ?_, by simp, ?_, ?_⟩
      · simp [natStrAux, h10, heq]
      · intro c hc
        rcases List.mem_append.mp hc with h | h
        · exact hdig c h
        · simp only [List.mem_singleton] at h
          subst h
          exact digitChar_isDigit (Nat.mod_lt _ (by omega))
      · have hd : (Nat.digitChar (n % 10)).toNat = 48 + n % 10 :=
          digitChar_toNat (Nat.mod_lt _ (by omega))
        simp only [digitsToNat, List.foldl_append, List.foldl_cons, List.foldl_nil] at hval ⊢
        rw [hd]
        have := Nat.div_add_mod n 10
        omega

theorem natStr_data_spec (n : Nat) : (natStr n).data ≠ [] ∧
    (∀ c ∈ (natStr n).data, c.isDigit = true) ∧ digitsToNat (natStr n).data = n := by
  obtain ⟨ds, heq, hne, hdig, hval⟩ := natStrAux_spec (n + 1) n (by omega) []
  have : (natStr n).data = ds := by simp [natStr, heq]
  rw [this]
  exact ⟨hne, hdig, hval⟩

theorem natStr_inj {a b : Nat} (h : natStr a = natStr b) : a = b := by
  have ha := (natStr_data_spec a).2.2
  have hb := (natStr_data_spec b).2.2
  rw [h] at ha
  omega

/-- The property of starting with a decimal digit; no emitted flag has it,
every emitted flag value has it. -/
def headIsDigit (s : String) : Prop :=
  ∃ c cs, s.data = c :: cs ∧ c.isDigit = true

theorem natStr_headIsDigit (n : Nat) : headIsDigit (natStr n) := by
  obtain ⟨hne, hdig, -⟩ := natStr_data_spec n
  rcases hds : (natStr n).data with _ | ⟨c, cs⟩
  · exact absurd hds hne
  · exact ⟨c, cs, hds, hdig c (by rw [hds]; exact List.mem_cons_self _ _)⟩

theorem headIsDigit_append_left {s : String} (t : String) (h : headIsDigit s) :
    headIsDigit (s ++ t) := by
  obtain ⟨c, cs, hd, hdig⟩ := h
  exact ⟨c, cs ++ t.data, by rw [String.data_append, hd]; rfl, hdig⟩

theorem headIsDigit_ne_dash {s t : String} (h : headIsDigit s)
    (ht : t.data.head? = some '-') : s ≠ t := by
  obtain ⟨c, cs, hd, hdig⟩ := h
  intro heq
  subst heq
  rw [hd] at ht
  simp only [List.head?_cons, Option.some.injEq] at ht
  subst ht
  exact absurd hdig (by decide)

theorem natStr_no_colon (n : Nat) : ∀ c ∈ (natStr n).data, c ≠ ':' := by
  intro c hc heq
  have := (natStr_data_spec n).2.1 c hc
  subst heq
  exact absurd this (by decide)

theorem colon_split : ∀ (xs ys r s : List Char), (∀ c ∈ xs, c ≠ ':') →
    (∀ c ∈ ys, c ≠ ':') → xs ++ ':' :: r = ys ++ ':' :: s → xs = ys ∧ r = s := by
  intro xs
  induction xs with
  | nil =>
    intro ys r s _ hys h
    cases ys with
    | nil => simpa using h
    | cons y ys =>
      simp only [List.nil_append, List.cons_append, List.cons.injEq] at h
      exact absurd h.1.symm (hys y (List.mem_cons_self _ _))
  | cons x xs ih =>
    intro ys r s hxs hys h
    cases ys with
    | nil =>
      simp only [List.cons_append, List.nil_append, List.cons.injEq] at h
      exact absurd h.1 (hxs x (List.mem_cons_self _ _))
    | cons y ys =>
      simp only [List.cons_append, List.cons.injEq] at h
      obtain ⟨hxy, htail⟩ := h
      obtain ⟨h1, h2⟩ := ih ys r s (fun c hc => hxs c (List.mem_cons_of_mem _ hc))
        (fun c hc => hys c (List.mem_cons_of_mem _ hc)) htail
      exact ⟨by rw [hxy, h1], h2⟩

/-- The one structural fact behind "no flag for that id": an `id:`-style
value determines the id in front of the first colon. -/
theorem natStr_colon_inj {a b : Nat} {r s : String}
    (h : natStr a ++ ":" ++ r = natStr b ++ ":" ++ s) : a = b ∧ r = s := by
  have hdata := congrArg String.data h
  simp only [String.data_append] at hdata
  simp only [List.append_assoc, List.singleton_append] at hdata
  obtain ⟨h1, h2⟩ := colon_split _ _ _ _ (natStr_no_colon a) (natStr_no_colon b) hdata
  exact ⟨natStr_inj (String.ext h1), String.ext h2⟩

/-! ### Locating arguments inside the synthesized command -/

/-- `x` and `v` occur as adjacent elements of `l`, in this order:
the form `flag value` takes inside an argument list. -/
def AdjPair {α : Type} (x v : α) (l : List α) : Prop :=
  ∃ p q, l = p ++ x :: v :: q

theorem AdjPair.append_left {α : Type} {x v : α} {B : List α} (A : List α)
    (h : AdjPair x v B) : AdjPair x v (A ++ B) := by
  obtain ⟨p, q, rfl⟩ := h
  exact ⟨A ++ p, q, by simp⟩

theorem AdjPair.append_right {α : Type} {x v : α} {B : List α} (C : List α)
    (h : AdjPair x v B) : AdjPair x v (B ++ C) := by
  obtain ⟨p, q, rfl⟩ := h
  exact ⟨p, q ++ C, by simp⟩

/-- An adjacent pair of `A ++ B` sits inside `A`, straddles the boundary,
or sits inside `B`. -/
theorem adj_split {α : Type} {A B p q : List α} {x v : α}
    (h : A ++ B = p ++ x :: v :: q) :
    (∃ p' q', A = p' ++ x :: v :: q') ∨
    (∃ p', A = p' ++ [x] ∧ ∃ q', B = v :: q') ∨
    (∃ p' q', B = p' ++ x :: v :: q') := by
  rcases List.append_eq_append_iff.mp h with ⟨a', ha1, ha2⟩ | ⟨c', hc1, hc2⟩
  · exact Or.inr (Or.inr ⟨a', q, ha2⟩)
  · cases c' with
    | nil =>
      simp only [List.nil_append] at hc2
      exact Or.inr (Or.inr ⟨[], q, by simp [hc2]⟩)
    | cons c1 c'' =>
      cases c'' with
      | nil =>
        simp only [List.cons_append, List.nil_append, List.cons.injEq] at hc2
        obtain ⟨hx1, hb⟩ := hc2
        exact Or.inr (Or.inl ⟨p, by rw [hc1, hx1], q, hb.symm⟩)
      | cons c2 c''' =>
        simp only [List.cons_append, List.cons.injEq] at hc2
        obtain ⟨hx1, hx2, hq⟩ := hc2
        exact Or.inl ⟨p, c''', by rw [hc1, hx1, hx2]⟩

/-- The per-track property arguments as (flag, value) blocks. -/
def trackBlocks (t : Track) : List (String × String) :=
  (match t.props.track_name with
   | some (some nm) => [("--track-name", natStr t.id ++ ":" ++ nm)]
   | some none => []
   | none => [("--track-name", natStr t.id ++ ":")]) ++
  (match t.props.default_track with
   | some b => [("--default-track", natStr t.id ++ ":" ++ (if b then "1" else "0"))]
   | none => [])

theorem trackPropArgs_eq_blocks (t : Track) :
    trackPropArgs t = (trackBlocks t).flatMap (fun b => [b.1, b.2]) := by
  rcases hn : t.props.track_name with _ | (_ | nm) <;>
    rcases hd : t.props.default_track with _ | b <;>
      simp [trackPropArgs, trackNameArgs, trackDefaultArgs, trackBlocks, hn, hd]

theorem flatMap_trackPropArgs_eq (L : List Track) :
    L.flatMap trackPropArgs = (L.flatMap trackBlocks).flatMap (fun b => [b.1, b.2]) := by
  induction L with
  | nil => simp
  | cons t ts ih =>
    simp only [List.flatMap_cons, List.flatMap_append, trackPropArgs_eq_blocks, ih]

theorem mem_trackBlocks {b : String × String} {t : Track} (hb : b ∈ trackBlocks t) :
    (b.1 = "--track-name" ∧
       ((∃ nm, t.props.track_name = some (some nm) ∧ b.2 = natStr t.id ++ ":" ++ nm) ∨
        (t.props.track_name = none ∧ b.2 = natStr t.id ++ ":"))) ∨
    (b.1 = "--default-track" ∧
       (∃ bb, t.props.default_track = some bb ∧
          b.2 = natStr t.id ++ ":" ++ (if bb then "1" else "0"))) := by
  rcases hn : t.props.track_name with _ | (_ | nm) <;>
    rcases hd : t.props.default_track with _ | bb <;>
      simp only [trackBlocks, hn, hd, List.mem_append, List.mem_singleton,
        List.not_mem_nil, List.nil_append, List.append_nil, or_false, false_or] at hb <;>
      first
        | exact hb.elim
        | (rcases hb with rfl | rfl <;> simp [hn, hd])

theorem trackBlocks_val_headIsDigit {b : String × String} {t : Track}
    (hb : b ∈ trackBlocks t) : headIsDigit b.2 := by
  rcases mem_trackBlocks hb with ⟨-, ⟨nm, -, hv⟩ | ⟨-, hv⟩⟩ | ⟨-, bb, -, hv⟩ <;>
    rw [hv]
  · exact headIsDigit_append_left _ (headIsDigit_append_left _ (natStr_headIsDigit _))
  · exact headIsDigit_append_left _ (natStr_headIsDigit _)
  · exact headIsDigit_append_left _ (headIsDigit_append_left _ (natStr_headIsDigit _))

/-- In a flattened list of (flag, value) blocks whose values all start with a
digit, any adjacent pair whose first member does not start with a digit is one
of the blocks. -/
theorem pairs_src : ∀ (blocks : List (String × String)) (p q : List String) (x v : String),
    blocks.flatMap (fun b => [b.1, b.2]) = p ++ x :: v :: q →
    ¬ headIsDigit x →
    (∀ b ∈ blocks, headIsDigit b.2) →
    ∃ b ∈ blocks, x = b.1 ∧ v = b.2 := by
  intro blocks
  induction blocks with
  | nil =>
    intro p q x v h _ _
    exact absurd h.symm (by simp)
  | cons b bs ih =>
    intro p q x v h hx hvals
    simp only [List.flatMap_cons, List.cons_append, List.nil_append] at h
    cases p with
    | nil =>
      simp only [List.nil_append, List.cons.injEq] at h
      exact ⟨b, List.mem_cons_self _ _, h.1.symm, h.2.1.symm⟩
    | cons p1 ps =>
      simp only [List.cons_append, List.cons.injEq] at h
      obtain ⟨-, h⟩ := h
      cases ps with
      | nil =>
        simp only [List.nil_append, List.cons.injEq] at h
        exact absurd (h.1 ▸ hvals b (List.mem_cons_self _ _)) hx
      | cons p2 ps' =>
        simp only [List.cons_append, List.cons.injEq] at h
        obtain ⟨-, h⟩ := h
        obtain ⟨b', hb', hb'2⟩ := ih ps' q x v h hx
          (fun c hc => hvals c (List.mem_cons_of_mem _ hc))
        exact ⟨b', List.mem_cons_of_mem _ hb', hb'2⟩

/-- The flattened blocks never end in a flag: the last element is some value. -/
theorem expand_last : ∀ (blocks : List (String × String)) (p : List String) (x : String),
    blocks.flatMap (fun b => [b.1, b.2]) = p ++ [x] → ∃ b ∈ blocks, x = b.2 := by
  intro blocks
  induction blocks with
  | nil =>
    intro p x h
    exact absurd h.symm (by simp)
  | cons b bs ih =>
    intro p x h
    simp only [List.flatMap_cons, List.cons_append, List.nil_append] at h
    cases p with
    | nil =>
      simp only [List.nil_append, List.cons.injEq] at h
      exact absurd h.2 (by simp)
    | cons p1 ps =>
      simp only [List.cons_append, List.cons.injEq] at h
      obtain ⟨-, h⟩ := h
      cases ps with
      | nil =>
        simp only [List.nil_append, List.cons.injEq] at h
        obtain ⟨h1, h2⟩ := h
        have : bs.flatMap (fun b => [b.1, b.2]) = [] := h2
        exact ⟨b, List.mem_cons_self _ _, h1.symm⟩
      | cons p2 ps' =>
        simp only [List.cons_append, List.cons.injEq] at h
        obtain ⟨-, h⟩ := h
        obtain ⟨b', hb', hb'2⟩ := ih ps' x h
        exact ⟨b', List.mem_cons_of_mem _ hb', hb'2⟩

theorem not_headIsDigit_dash {t : String} (ht : t.data.head? = some '-') :
    ¬ headIsDigit t :=
  fun h => headIsDigit_ne_dash h ht rfl

theorem pyJoinComma_headIsDigit {s : String} (rest : List String) (h : headIsDigit s) :
    headIsDigit (pyJoinComma (s :: rest)) := by
  suffices H : ∀ (l : List String) (acc : String), headIsDigit acc →
      headIsDigit (l.foldl (fun a y => a ++ "," ++ y) acc) from H rest s h
  intro l
  induction l with
  | nil => intro acc hacc; exact hacc
  | cons y ys ih =>
    intro acc hacc
    exact ih _ (headIsDigit_append_left _ (headIsDigit_append_left _ hacc))

theorem mem_selectionArgs {x : String} {ty : TrackType} {final orig : List Track}
    (hx : x ∈ selectionArgs ty final orig) :
    x = inclFlag ty ∨ x = exclFlag ty ∨ headIsDigit x := by
  simp only [selectionArgs] at hx
  by_cases hids : typeIds ty final = []
  · rw [if_pos hids] at hx
    by_cases hany : orig.any (fun t => t.type == ty)
    · rw [if_pos hany] at hx
      simp only [List.mem_singleton] at hx
      exact Or.inr (Or.inl hx)
    · rw [if_neg hany] at hx
      exact absurd hx (List.not_mem_nil x)
  · rw [if_neg hids] at hx
    simp only [List.mem_cons, List.mem_singleton, List.not_mem_nil, or_false] at hx
    rcases hx with h | h
    · exact Or.inl h
    · refine Or.inr (Or.inr ?_)
      subst h
      rcases hl : typeIds ty final with _ | ⟨a, as⟩
      · exact absurd hl hids
      · have ha : a ∈ typeIds ty final := by rw [hl]; exact List.mem_cons_self _ _
        obtain ⟨t, -, hta⟩ := List.mem_map.mp ha
        exact pyJoinComma_headIsDigit as (hta ▸ natStr_headIsDigit t.id)

/-- Any `--track-name`/`--default-track` pair in the synthesized command is
one of the property blocks of some final track. -/
theorem build_pair_src {input output x v : String} {final orig : List Track}
    (hxflag : x = "--track-name" ∨ x = "--default-track")
    (hout : output ≠ x)
    (hpair : AdjPair x v (build_mkvmerge_command input output final orig)) :
    ∃ t ∈ final, ∃ b ∈ trackBlocks t, x = b.1 ∧ v = b.2 := by
  have hxdash : ¬ headIsDigit x := by
    rcases hxflag with rfl | rfl <;> exact not_headIsDigit_dash rfl
  have hxnotsel : ∀ ty, x ∉ selectionArgs ty final orig := by
    intro ty hmem
    rcases mem_selectionArgs hmem with h | h | h
    · rcases hxflag with rfl | rfl <;> cases ty <;> exact absurd h (by decide)
    · rcases hxflag with rfl | rfl <;> cases ty <;> exact absurd h (by decide)
    · exact hxdash h
  obtain ⟨p, q, hq⟩ := hpair
  have hassoc : build_mkvmerge_command input output final orig =
      (["mkvmerge", "-q", "-o", output]
        ++ selectionArgs TrackType.video final orig
        ++ selectionArgs TrackType.audio final orig
        ++ selectionArgs TrackType.subtitles final orig)
      ++ (final.flatMap trackPropArgs ++ [input]) := by
    simp [build_mkvmerge_command, List.append_assoc]
  rw [hassoc] at hq
  have hxnotA : x ∉ ["mkvmerge", "-q", "-o", output]
      ++ selectionArgs TrackType.video final orig
      ++ selectionArgs TrackType.audio final orig
      ++ selectionArgs TrackType.subtitles final orig := by
    intro hmem
    rcases List.mem_append.mp hmem with h | h
    · rcases List.mem_append.mp h with h | h
      · rcases List.mem_append.mp h with h | h
        · simp only [List.mem_cons, List.not_mem_nil, or_false] at h
          rcases h with h | h | h | h <;>
            first
              | exact hout h.symm
              | (rcases hxflag with rfl | rfl <;> exact absurd h (by decide))
        · exact hxnotsel _ h
      · exact hxnotsel _ h
    · exact hxnotsel _ h
  have hvals : ∀ b ∈ final.flatMap trackBlocks, headIsDigit b.2 := by
    intro b hb
    obtain ⟨t, -, hbt⟩ := List.mem_flatMap.mp hb
    exact trackBlocks_val_headIsDigit hbt
  rcases adj_split hq with ⟨p', q', hA⟩ | ⟨p', hA, -⟩ | ⟨p', q', hB⟩
  · exact absurd (by rw [hA]; simp : x ∈ _) hxnotA
  · exact absurd (by rw [hA]; simp : x ∈ _) hxnotA
  · rcases adj_split hB with ⟨p₂, q₂, hP⟩ | ⟨p₂, hP, -⟩ | ⟨p₂, q₂, hI⟩
    · rw [flatMap_trackPropArgs_eq] at hP
      obtain ⟨b, hb, hxb, hvb⟩ := pairs_src _ _ _ _ _ hP hxdash hvals
      obtain ⟨t, ht, hbt⟩ := List.mem_flatMap.mp hb
      exact ⟨t, ht, b, hbt, hxb, hvb⟩
    · rw [flatMap_trackPropArgs_eq] at hP
      obtain ⟨b, hb, hxb⟩ := expand_last _ _ _ hP
      exact absurd (hxb ▸ hvals b hb) hxdash
    · have := congrArg List.length hI
      simp at this
      omega

/-- Conversely, every property block of a final track shows up adjacently in
the synthesized command. -/
theorem block_adjpair {input output : String} {final orig : List Track} {t : Track}
    (hmem : t ∈ final) {b : String × String} (hb : b ∈ trackBlocks t) :
    AdjPair b.1 b.2 (build_mkvmerge_command input output final orig) := by
  obtain ⟨s1, s2, hsplit⟩ := List.append_of_mem hmem
  obtain ⟨u1, u2, hbsplit⟩ := List.append_of_mem hb
  have hP : AdjPair b.1 b.2 (final.flatMap trackPropArgs) := by
    rw [flatMap_trackPropArgs_eq, hsplit]
    refine ⟨(s1.flatMap trackBlocks).flatMap (fun c => [c.1, c.2])
        ++ u1.flatMap (fun c => [c.1, c.2]),
      u2.flatMap (fun c => [c.1, c.2])
        ++ (s2.flatMap trackBlocks).flatMap (fun c => [c.1, c.2]), ?_⟩
    simp [List.flatMap_append, List.flatMap_cons, hbsplit, List.append_assoc]
  exact (hP.append_left _).append_right _

theorem trackBlocks_val_form {b : String × String} {t : Track}
    (hb : b ∈ trackBlocks t) : ∃ r : String, b.2 = natStr t.id ++ ":" ++ r := by
  rcases mem_trackBlocks hb with ⟨-, ⟨nm, -, hv⟩ | ⟨-, hv⟩⟩ | ⟨-, bb, -, hv⟩
  · exact ⟨nm, hv⟩
  · exact ⟨"", by rw [hv]; simp⟩
  · exact ⟨_, hv⟩

/-- A value of the form `id₂:r` never starts with `id₁:` for a different id. -/
theorem no_foreign_id_value {a b : Nat} (hne : a ≠ b) (r : String) :
    ¬ List.IsPrefix (natStr a ++ ":").data (natStr b ++ ":" ++ r).data := by
  rintro ⟨rest, hrest⟩
  simp only [String.data_append] at hrest
  simp only [List.append_assoc, List.singleton_append] at hrest
  obtain ⟨h1, -⟩ := colon_split _ _ _ _ (natStr_no_colon a) (natStr_no_colon b) hrest
  exact hne (natStr_inj (String.ext h1))

/-- C2: for every track of `finalTracks`, the synthesizer emits the name-set
flag pair `--track-name id:name` when the `track_name` property holds a name,
and the name-clear pair `--track-name id:` whenever the `track_name` key is
absent from the track's properties (in particular for `properties = {}`,
which is `TrackProps` with every field `none`). -/
theorem C2_track_name_flags (input output : String) (final orig : List Track)
    (track : Track) (hmem : track ∈ final) :
    (∀ nm, track.props.track_name = some (some nm) →
       AdjPair "--track-name" (natStr track.id ++ ":" ++ nm)
         (build_mkvmerge_command input output final orig)) ∧
    (track.props.track_name = none →
       AdjPair "--track-name" (natStr track.id ++ ":")
         (build_mkvmerge_command input output final orig)) := by
  constructor
  · intro nm hnm
    have hb : ("--track-name", natStr track.id ++ ":" ++ nm) ∈ trackBlocks track := by
      simp [trackBlocks, hnm]
    exact block_adjpair hmem hb
  · intro hnone
    have hb : ("--track-name", natStr track.id ++ ":") ∈ trackBlocks track := by
      simp [trackBlocks, hnone]
    exact block_adjpair hmem hb

/-- C5: for every track of `finalTracks`, the synthesizer emits the pair
`--default-track id:1` / `--default-track id:0` exactly when the
`default_track` key is present; when it is absent no `--default-track`
argument for that id appears anywhere in the command. -/
theorem C5_default_flag_iff (input output : String) (final orig : List Track)
    (track : Track) (hmem : track ∈ final)
    (hids : final.Pairwise (fun a b => a.id ≠ b.id))
    (hout : output ≠ "--default-track") :
    (∀ b, track.props.default_track = some b →
       AdjPair "--default-track" (natStr track.id ++ ":" ++ (if b then "1" else "0"))
         (build_mkvmerge_command input output final orig)) ∧
    (track.props.default_track = none →
       ∀ v, AdjPair "--default-track" v (build_mkvmerge_command input output final orig) →
         ¬ List.IsPrefix (natStr track.id ++ ":").data v.data) := by
  constructor
  · intro b hb
    have hblk : ("--default-track", natStr track.id ++ ":" ++ (if b then "1" else "0"))
        ∈ trackBlocks track := by
      rcases hn : track.props.track_name with _ | (_ | nm) <;> simp [trackBlocks, hn, hb]
    exact block_adjpair hmem hblk
  · intro habsent v hpair hpre
    obtain ⟨t', ht', b, hbt', hxb, hvb⟩ := build_pair_src (Or.inr rfl) hout hpair
    rcases mem_trackBlocks hbt' with ⟨hflag, -⟩ | ⟨-, bb, hkey, hval⟩
    · exact absurd (hxb.trans hflag) (by decide)
    · by_cases heq : t' = track
      · subst heq
        rw [habsent] at hkey
        cases hkey
      · have hsymm : Symmetric (fun a b : Track => a.id ≠ b.id) :=
          fun a b h hh => h hh.symm
        have hne : track.id ≠ t'.id :=
          (List.Pairwise.forall hsymm hids ht' hmem heq).symm
        rw [hvb, hval] at hpre
        exact no_foreign_id_value hne _ hpre

/-- C10: a track whose `track_name` key is present with value `None` gets
neither a name-set nor a name-clear argument for its id: no `--track-name`
pair in the command carries a value starting with that track's `id:`. -/
theorem C10_null_name_silent (input output : String) (final orig : List Track)
    (track : Track) (hmem : track ∈ final)
    (hnull : track.props.track_name = some none)
    (hids : final.Pairwise (fun a b => a.id ≠ b.id))
    (hout : output ≠ "--track-name") :
    ∀ v, AdjPair "--track-name" v (build_mkvmerge_command input output final orig) →
      ¬ List.IsPrefix (natStr track.id ++ ":").data v.data := by
  intro v hpair hpre
  obtain ⟨t', ht', b, hbt', hxb, hvb⟩ := build_pair_src (Or.inl rfl) hout hpair
  rcases mem_trackBlocks hbt' with ⟨-, hspec⟩ | ⟨hflag, -⟩
  · by_cases heq : t' = track
    · subst heq
      rcases hspec with ⟨nm, hkey, -⟩ | ⟨hkey, -⟩ <;> rw [hnull] at hkey <;> cases hkey
    · have hsymm : Symmetric (fun a b : Track => a.id ≠ b.id) :=
        fun a b h hh => h hh.symm
      have hne : track.id ≠ t'.id :=
        (List.Pairwise.forall hsymm hids ht' hmem heq).symm
      rcases hspec with ⟨nm, -, hval⟩ | ⟨-, hval⟩
      · rw [hvb, hval] at hpre
        exact no_foreign_id_value hne _ hpre
      · have hval' : b.2 = natStr t'.id ++ ":" ++ "" := by rw [hval]; simp
        rw [hvb, hval'] at hpre
        exact no_foreign_id_value hne _ hpre
  · exact absurd (hxb.trans hflag) (by decide)

/-! ### The selection filter flags (claim C1) -/

/-- The six track-selection flags the synthesizer can emit. -/
def selFlags : List String :=
  ["--video-tracks", "--audio-tracks", "--subtitle-tracks",
   "--no-video", "--no-audio", "--no-subtitles"]

theorem inclFlag_mem_selFlags (ty : TrackType) : inclFlag ty ∈ selFlags := by
  cases ty <;> decide

theorem exclFlag_mem_selFlags (ty : TrackType) : exclFlag ty ∈ selFlags := by
  cases ty <;> decide

theorem typeIds_eq_nil_iff {ty : TrackType} {l : List Track} :
    typeIds ty l = [] ↔ ¬ ∃ t ∈ l, t.type = ty := by
  simp [typeIds, List.filter_eq_nil_iff]

theorem any_type_iff {ty : TrackType} {l : List Track} :
    (l.any (fun t => t.type == ty)) = true ↔ ∃ t ∈ l, t.type = ty := by
  simp [List.any_eq_true]

theorem mem_flatMap_trackPropArgs {x : String} {L : List Track}
    (hx : x ∈ L.flatMap trackPropArgs) :
    x = "--track-name" ∨ x = "--default-track" ∨ headIsDigit x := by
  rw [flatMap_trackPropArgs_eq] at hx
  obtain ⟨b, hb, hxb⟩ := List.mem_flatMap.mp hx
  obtain ⟨t, -, hbt⟩ := List.mem_flatMap.mp hb
  simp only [List.mem_cons, List.mem_singleton, List.not_mem_nil, or_false] at hxb
  rcases hxb with rfl | rfl
  · rcases mem_trackBlocks hbt with ⟨h, -⟩ | ⟨h, -⟩
    · exact Or.inl h
    · exact Or.inr (Or.inl h)
  · exact Or.inr (Or.inr (trackBlocks_val_headIsDigit hbt))

/-- A string in the synthesized command that is none of the fixed strings,
paths, property flags, and does not start with a digit, comes from one of
the three selection-argument groups. -/
theorem selflag_src {f input output : String} {final orig : List Track}
    (hmem : f ∈ build_mkvmerge_command input output final orig)
    (hin : input ≠ f) (hout : output ≠ f)
    (hlit : f ≠ "mkvmerge" ∧ f ≠ "-q" ∧ f ≠ "-o")
    (hprop : f ≠ "--track-name" ∧ f ≠ "--default-track")
    (hdash : ¬ headIsDigit f) :
    ∃ ty', f ∈ selectionArgs ty' final orig := by
  unfold build_mkvmerge_command at hmem
  rcases List.mem_append.mp hmem with h | h
  · rcases List.mem_append.mp h with h | h
    · rcases List.mem_append.mp h with h | h
      · rcases List.mem_append.mp h with h | h
        · rcases List.mem_append.mp h with h | h
          · simp only [List.mem_cons, List.not_mem_nil, or_false] at h
            rcases h with h | h | h | h
            · exact absurd h hlit.1
            · exact absurd h hlit.2.1
            · exact absurd h hlit.2.2
            · exact absurd h.symm hout
          · exact ⟨TrackType.video, h⟩
        · exact ⟨TrackType.audio, h⟩
      · exact ⟨TrackType.subtitles, h⟩
    · rcases mem_flatMap_trackPropArgs h with h | h | h
      · exact absurd h hprop.1
      · exact absurd h hprop.2
      · exact absurd h hdash
  · simp only [List.mem_singleton] at h
    exact absurd h.symm hin

theorem inclFlag_not_headIsDigit (ty : TrackType) : ¬ headIsDigit (inclFlag ty) := by
  cases ty <;> exact not_headIsDigit_dash rfl

theorem exclFlag_not_headIsDigit (ty : TrackType) : ¬ headIsDigit (exclFlag ty) := by
  cases ty <;> exact not_headIsDigit_dash rfl

theorem inclFlag_mem_selectionArgs {ty ty' : TrackType} {final orig : List Track}
    (h : inclFlag ty ∈ selectionArgs ty' final orig) :
    ty = ty' ∧ typeIds ty' final ≠ [] := by
  simp only [selectionArgs] at h
  by_cases hids : typeIds ty' final = []
  · rw [if_pos hids] at h
    by_cases hany : orig.any (fun t => t.type == ty')
    · rw [if_pos hany] at h
      simp only [List.mem_singleton] at h
      exact absurd h (by cases ty <;> cases ty' <;> decide)
    · rw [if_neg hany] at h
      exact absurd h (List.not_mem_nil _)
  · rw [if_neg hids] at h
    simp only [List.mem_cons, List.mem_singleton, List.not_mem_nil, or_false] at h
    rcases h with h | h
    · refine ⟨?_, hids⟩
      revert h
      cases ty <;> cases ty' <;> decide
    · rcases hl : typeIds ty' final with _ | ⟨a, as⟩
      · exact absurd hl hids
      · have ha : a ∈ typeIds ty' final := by rw [hl]; exact List.mem_cons_self _ _
        obtain ⟨t, -, hta⟩ := List.mem_map.mp ha
        rw [hl] at h
        exact absurd (h ▸ pyJoinComma_headIsDigit as (hta ▸ natStr_headIsDigit t.id))
          (inclFlag_not_headIsDigit ty)

theorem exclFlag_mem_selectionArgs {ty ty' : TrackType} {final orig : List Track}
    (h : exclFlag ty ∈ selectionArgs ty' final orig) :
    ty = ty' ∧ typeIds ty' final = [] ∧ (orig.any (fun t => t.type == ty')) = true := by
  simp only [selectionArgs] at h
  by_cases hids : typeIds ty' final = []
  · rw [if_pos hids] at h
    by_cases hany : orig.any (fun t => t.type == ty')
    · rw [if_pos hany] at h
      simp only [List.mem_singleton] at h
      refine ⟨?_, hids, hany⟩
      revert h
      cases ty <;> cases ty' <;> decide
    · rw [if_neg hany] at h
      exact absurd h (List.not_mem_nil _)
  · rw [if_neg hids] at h
    simp only [List.mem_cons, List.mem_singleton, List.not_mem_nil, or_false] at h
    rcases h with h | h
    · exact absurd h (by cases ty <;> cases ty' <;> decide)
    · rcases hl : typeIds ty' final with _ | ⟨a, as⟩
      · exact absurd hl hids
      · have ha : a ∈ typeIds ty' final := by rw [hl]; exact List.mem_cons_self _ _
        obtain ⟨t, -, hta⟩ := List.mem_map.mp ha
        rw [hl] at h
        exact absurd (h ▸ pyJoinComma_headIsDigit as (hta ▸ natStr_headIsDigit t.id))
          (exclFlag_not_headIsDigit ty)

theorem adjpair_incl (input output : String) {ty : TrackType} {final : List Track}
    (orig : List Track) (hne : typeIds ty final ≠ []) :
    AdjPair (inclFlag ty) (pyJoinComma (typeIds ty final))
      (build_mkvmerge_command input output final orig) := by
  have hsel : selectionArgs ty final orig =
      [inclFlag ty, pyJoinComma (typeIds ty final)] := by
    simp only [selectionArgs]
    rw [if_neg hne]
  have hpair : AdjPair (inclFlag ty) (pyJoinComma (typeIds ty final))
      (selectionArgs ty final orig) := ⟨[], [], by rw [hsel]; rfl⟩
  unfold build_mkvmerge_command
  cases ty
  · exact ((((hpair.append_left _).append_right _).append_right _).append_right _).append_right _
  · exact (((hpair.append_left _).append_right _).append_right _).append_right _
  · exact ((hpair.append_left _).append_right _).append_right _

theorem inclFlag_not_mem_build {ty : TrackType} {input output : String}
    {final orig : List Track}
    (hin : input ∉ selFlags) (hout : output ∉ selFlags)
    (hids : typeIds ty final = []) :
    inclFlag ty ∉ build_mkvmerge_command input output final orig := by
  intro hmem
  obtain ⟨ty', h⟩ := selflag_src hmem
    (fun heq => hin (heq ▸ inclFlag_mem_selFlags ty))
    (fun heq => hout (heq ▸ inclFlag_mem_selFlags ty))
    (by cases ty <;> exact ⟨by decide, by decide, by decide⟩)
    (by cases ty <;> exact ⟨by decide, by decide⟩)
    (inclFlag_not_headIsDigit ty)
  obtain ⟨rfl, hne⟩ := inclFlag_mem_selectionArgs h
  exact hne hids

theorem exclFlag_not_mem_build {ty : TrackType} {input output : String}
    {final orig : List Track}
    (hin : input ∉ selFlags) (hout : output ∉ selFlags)
    (hcond : ¬ (typeIds ty final = [] ∧ (orig.any (fun t => t.type == ty)) = true)) :
    exclFlag ty ∉ build_mkvmerge_command input output final orig := by
  intro hmem
  obtain ⟨ty', h⟩ := selflag_src hmem
    (fun heq => hin (heq ▸ exclFlag_mem_selFlags ty))
    (fun heq => hout (heq ▸ exclFlag_mem_selFlags ty))
    (by cases ty <;> exact ⟨by decide, by decide, by decide⟩)
    (by cases ty <;> exact ⟨by decide, by decide⟩)
    (exclFlag_not_headIsDigit ty)
  obtain ⟨rfl, hids, hany⟩ := exclFlag_mem_selectionArgs h
  exact hcond ⟨hids, hany⟩

theorem exclFlag_mem_build {ty : TrackType} (input output : String)
    {final orig : List Track}
    (hids : typeIds ty final = []) (hany : (orig.any (fun t => t.type == ty)) = true) :
    exclFlag ty ∈ build_mkvmerge_command input output final orig := by
  have hsel : selectionArgs ty final orig = [exclFlag ty] := by
    simp only [selectionArgs]
    rw [if_pos hids, if_pos hany]
  have hmem : exclFlag ty ∈ selectionArgs ty final orig := by
    rw [hsel]; exact List.mem_cons_self _ _
  unfold build_mkvmerge_command
  cases ty <;>
    simp only [List.mem_append] <;>
    tauto

/-- C1: for each track type, when `finalTracks` has a track of that type the
command contains the inclusion flag adjacent to the comma-joined ids of
exactly the final tracks of that type (in `finalTracks` order) and no
exclusion flag for that type; when it has none but the original track set
did, the command contains the exclusion flag and no inclusion flag; when
neither has that type, the command contains neither flag. -/
theorem C1_selection_filters (input output : String) (final orig : List Track)
    (hin : input ∉ selFlags) (hout : output ∉ selFlags) (ty : TrackType) :
    ((∃ t ∈ final, t.type = ty) →
       AdjPair (inclFlag ty)
         (pyJoinComma ((final.filter (fun t => t.type == ty)).map (fun t => natStr t.id)))
         (build_mkvmerge_command input output final orig) ∧
       exclFlag ty ∉ build_mkvmerge_command input output final orig) ∧
    ((¬ ∃ t ∈ final, t.type = ty) → (∃ t ∈ orig, t.type = ty) →
       exclFlag ty ∈ build_mkvmerge_command input output final orig ∧
       inclFlag ty ∉ build_mkvmerge_command input output final orig) ∧
    ((¬ ∃ t ∈ final, t.type = ty) → (¬ ∃ t ∈ orig, t.type = ty) →
       inclFlag ty ∉ build_mkvmerge_command input output final orig ∧
       exclFlag ty ∉ build_mkvmerge_command input output final orig) := by
  refine ⟨?_, ?_, ?_⟩
  · intro hfin
    have hne : typeIds ty final ≠ [] := fun h => (typeIds_eq_nil_iff.mp h) hfin
    exact ⟨adjpair_incl input output orig hne,
      exclFlag_not_mem_build hin hout (fun h => hne h.1)⟩
  · intro hfin horig
    have hids : typeIds ty final = [] := typeIds_eq_nil_iff.mpr hfin
    have hany : (orig.any (fun t => t.type == ty)) = true := any_type_iff.mpr horig
    exact ⟨exclFlag_mem_build input output hids hany,
      inclFlag_not_mem_build hin hout hids⟩
  · intro hfin horig
    have hids : typeIds ty final = [] := typeIds_eq_nil_iff.mpr hfin
    refine ⟨inclFlag_not_mem_build hin hout hids, ?_⟩
    refine exclFlag_not_mem_build hin hout (fun h => horig ?_)
    exact any_type_iff.mp h.2

/-- C8 counterexample: a 28-character name exceeds 27 display columns yet is
rendered in full by `display_tracks`, with no ellipsis appended (the code
truncates names only beyond `w_name = 30`). -/
theorem C8_cex_name_28 :
    27 < ("abcdefghijklmnopqrstuvwxyzab" : String).length ∧
    name_display "abcdefghijklmnopqrstuvwxyzab" = "abcdefghijklmnopqrstuvwxyzab" ∧
    (name_display "abcdefghijklmnopqrstuvwxyzab").data.getLast? ≠ some '.' := by
  decide

/-- C8 amended: the codec string is truncated to its first 15 characters plus
an ellipsis exactly when its length exceeds 18, and the name string is
truncated to its first 27 characters plus an ellipsis exactly when its length
exceeds 30; at or below those limits the strings are shown in full. -/
theorem C8_truncation (s : String) :
    (codec_display s = if 18 < s.length then pyTake s 15 ++ "..." else s) ∧
    (name_display s = if 30 < s.length then pyTake s 27 ++ "..." else s) :=
  ⟨rfl, rfl⟩

/-- C9: a valid comma-separated selection repeating the same display number
is accepted with no deduplication - the mapped track is kept once per
repetition - and the Command Synthesizer's inclusion filter value for that
track's type then lists its id once per occurrence (at least twice when the
track occurs at least twice in `finalTracks`), adjacent to the inclusion
flag. -/
theorem C9_duplicate_selection :
    (∀ (m : Int → Option Track) (start stop : Int) (raw : String) (rest : List String)
        (vals : List Int) (d : Int) (tr : Track),
        parse_group_input start stop (pyStrip raw) = some vals →
        m d = some tr → (∀ d', m d' = some tr → d' = d) →
        run_group m start stop (raw :: rest) = some (vals.filterMap m, rest) ∧
          (vals.filterMap m).count tr = vals.count d) ∧
    (∀ (final orig : List Track) (tr : Track) (input output : String),
        tr ∈ final → 2 ≤ final.count tr →
        2 ≤ ((final.filter (fun t => t.type == tr.type)).map (fun t => natStr t.id)).count
              (natStr tr.id) ∧
          AdjPair (inclFlag tr.type)
            (pyJoinComma ((final.filter (fun t => t.type == tr.type)).map
              (fun t => natStr t.id)))
            (build_mkvmerge_command input output final orig)) := by
  constructor
  · intro m start stop raw rest vals d tr hparse hm hinj
    refine ⟨by simp [run_group, hparse], ?_⟩
    clear hparse
    induction vals with
    | nil => simp
    | cons w ws ih =>
      by_cases hw : w = d
      · subst hw
        simp only [List.filterMap_cons, hm, List.count_cons, ih]
        simp
      · rcases hmw : m w with _ | tr'
        · simp only [List.filterMap_cons, hmw, List.count_cons, ih]
          simp [hw]
        · have htr' : tr' ≠ tr := fun h => hw (hinj w (h ▸ hmw))
          simp only [List.filterMap_cons, hmw, List.count_cons, ih]
          simp [hw, htr']
  · intro final orig tr input output hmem hcount
    have hne : typeIds tr.type final ≠ [] :=
      fun h => (typeIds_eq_nil_iff.mp h) ⟨tr, hmem, rfl⟩
    refine ⟨?_, adjpair_incl input output orig hne⟩
    have h1 : final.count tr = (final.filter (fun t => t.type == tr.type)).count tr :=
      (List.count_filter (by simp)).symm
    have h2 := List.count_le_count_map (final.filter (fun t => t.type == tr.type))
      (fun t => natStr t.id) tr
    omega

/-! ### Selection Engine lemmas (claims C6, C7) -/

theorem mapM_option_none {α β : Type} {f : α → Option β} {l : List α} {a : α}
    (ha : a ∈ l) (hf : f a = none) : l.mapM f = none := by
  rw [← List.mapM'_eq_mapM]
  induction l with
  | nil => cases ha
  | cons x xs ih =>
    rcases List.mem_cons.mp ha with rfl | ha'
    · simp [List.mapM', hf]
    · rcases hx : f x with _ | b
      · simp [List.mapM', hx]
      · simp [List.mapM', hx, ih ha']

/-- C7: on a non-empty group's prompt, a comma-separated input containing a
token that does not parse as an integer, or an integer outside the group's
display-number range, is rejected as a whole: no track is selected from it
and the same prompt is re-issued on the remaining input. -/
theorem C7_reject_invalid (m : Int → Option Track) (start stop : Int)
    (raw : String) (rest : List String)
    (h1 : pyLower (pyStrip raw) ≠ "all") (h2 : pyLower (pyStrip raw) ≠ "none")
    (h3 : pyStrip raw ≠ "")
    (h4 : (∃ tok ∈ pySplitComma (pyStrip raw), pyInt? (pyStrip tok) = none) ∨
          (∃ vals, (pySplitComma (pyStrip raw)).mapM (fun x => pyInt? (pyStrip x))
              = some vals ∧ ∃ v ∈ vals, ¬ (start ≤ v ∧ v < stop))) :
    run_group m start stop (raw :: rest) = run_group m start stop rest := by
  have hparse : parse_group_input start stop (pyStrip raw) = none := by
    unfold parse_group_input
    rw [if_neg h1, if_neg (by rintro (h | h); exacts [h2 h, h3 h])]
    rcases h4 with ⟨tok, htok, hnone⟩ | ⟨vals, hvals, v, hv, hrange⟩
    · rw [mapM_option_none htok hnone]
    · rw [hvals]
      refine if_neg (fun hall => hrange ?_)
      have := List.all_eq_true.mp hall v hv
      simpa using this
  simp [run_group, hparse]

theorem run_group_parse {m : Int → Option Track} {start stop : Int} {raw : String}
    {rest : List String} {ids : List Int}
    (h : parse_group_input start stop (pyStrip raw) = some ids) :
    run_group m start stop (raw :: rest) = some (ids.filterMap m, rest) := by
  simp [run_group, h]

theorem parse_all {start stop : Int} {raw : String} (h : pyLower raw = "all") :
    parse_group_input start stop raw = some (intRange start stop) := by
  unfold parse_group_input
  rw [if_pos h]

theorem parse_none_or_empty {start stop : Int} {raw : String}
    (h : pyLower raw = "none" ∨ raw = "") :
    parse_group_input start stop raw = some [] := by
  unfold parse_group_input
  have hne : pyLower raw ≠ "all" := by
    rcases h with h | h
    · rw [h]; decide
    · subst h; decide
  rw [if_neg hne, if_pos h]

instance : IsTotal Track (fun a b => a.id ≤ b.id) :=
  ⟨fun a b => Nat.le_total a.id b.id⟩

instance : IsTrans Track (fun a b => a.id ≤ b.id) :=
  ⟨fun _ _ _ => Nat.le_trans⟩

theorem track_map_lookup (all_tracks : List Track) (j : Nat) :
    track_map all_tracks (1 + (j : Int)) = (orderedTracks all_tracks)[j]? := by
  unfold track_map
  rw [if_pos (by omega)]
  have : ((1 + (j : Int)) - 1).toNat = j := by omega
  rw [this]

theorem filterMap_getElem?_range {α : Type} (l : List α) :
    (List.range l.length).filterMap (fun j => l[j]?) = l := by
  induction l with
  | nil => simp
  | cons x xs ih =>
    simp only [List.length_cons, List.range_succ_eq_map, List.filterMap_cons,
      List.getElem?_cons_zero, List.filterMap_map]
    congr 1
    rw [show ((fun j => (x :: xs)[j]?) ∘ Nat.succ) = fun j => xs[j]? from
      funext fun j => by simp]
    exact ih

theorem intRange_eq (start : Int) (cnt : Nat) :
    intRange start (start + cnt) = (List.range cnt).map (fun k : Nat => start + (k : Int)) := by
  unfold intRange
  rw [show ((start + (cnt : Int)) - start).toNat = cnt from by omega]

theorem audio_extract (all_tracks : List Track) :
    (intRange (1 + ((all_tracks.filter (fun t => t.type == TrackType.video)).length : Int))
        (1 + (all_tracks.filter (fun t => t.type == TrackType.video)).length
          + (all_tracks.filter (fun t => t.type == TrackType.audio)).length)).filterMap
      (track_map all_tracks)
    = all_tracks.filter (fun t => t.type == TrackType.audio) := by
  set v := all_tracks.filter (fun t => t.type == TrackType.video) with hv
  set a := all_tracks.filter (fun t => t.type == TrackType.audio) with ha2
  set s := all_tracks.filter (fun t => t.type == TrackType.subtitles) with hs
  rw [intRange_eq (1 + (v.length : Int)) a.length, List.filterMap_map]
  have hcongr : ∀ j ∈ List.range a.length,
      (track_map all_tracks ∘ fun k : Nat => (1 + (v.length : Int)) + (k : Int)) j
        = a[j]? := by
    intro j hj
    have hj' : j < a.length := List.mem_range.mp hj
    show track_map all_tracks (1 + (v.length : Int) + j) = a[j]?
    rw [show (1 + (v.length : Int) + j) = 1 + ((v.length + j : Nat) : Int) from by
        push_cast; ring,
      track_map_lookup]
    unfold orderedTracks
    rw [← hv, ← ha2, ← hs, List.append_assoc,
      List.getElem?_append_right (by omega),
      show v.length + j - v.length = j from by omega]
    exact List.getElem?_append_left hj'
  rw [List.filterMap_congr hcongr]
  exact filterMap_getElem?_range a

theorem subtitle_extract (all_tracks : List Track) :
    (intRange (1 + ((all_tracks.filter (fun t => t.type == TrackType.video)).length : Int)
          + (all_tracks.filter (fun t => t.type == TrackType.audio)).length)
        (1 + (all_tracks.filter (fun t => t.type == TrackType.video)).length
          + (all_tracks.filter (fun t => t.type == TrackType.audio)).length
          + (all_tracks.filter (fun t => t.type == TrackType.subtitles)).length)).filterMap
      (track_map all_tracks)
    = all_tracks.filter (fun t => t.type == TrackType.subtitles) := by
  set v := all_tracks.filter (fun t => t.type == TrackType.video) with hv
  set a := all_tracks.filter (fun t => t.type == TrackType.audio) with ha2
  set s := all_tracks.filter (fun t => t.type == TrackType.subtitles) with hs
  rw [intRange_eq (1 + (v.length : Int) + a.length) s.length, List.filterMap_map]
  have hcongr : ∀ j ∈ List.range s.length,
      (track_map all_tracks ∘ fun k : Nat => (1 + (v.length : Int) + a.length) + (k : Int)) j
        = s[j]? := by
    intro j hj
    show track_map all_tracks (1 + (v.length : Int) + a.length + j) = s[j]?
    rw [show (1 + (v.length : Int) + a.length + j)
          = 1 + ((v.length + a.length + j : Nat) : Int) from by push_cast; ring,
      track_map_lookup]
    unfold orderedTracks
    rw [← hv, ← ha2, ← hs,
      List.getElem?_append_right (by simp only [List.length_append]; omega),
      show v.length + a.length + j - (v ++ a).length = j from by
        simp only [List.length_append]; omega]
  rw [List.filterMap_congr hcongr]
  exact filterMap_getElem?_range s

/-- Every successful run of the Selection Engine returns the id-sorted
concatenation of the video tracks and the two group selections. -/
theorem select_spec {all_tracks : List Track} {inputs : List String} {r : List Track}
    (h : select_tracks_to_keep all_tracks inputs = some r) :
    ∃ asel ssel, r = List.insertionSort (fun a b => a.id ≤ b.id)
      ((all_tracks.filter (fun t => t.type == TrackType.video)) ++ asel ++ ssel) := by
  simp only [select_tracks_to_keep] at h
  split at h
  · cases h
  · split at h
    · cases h
    · exact ⟨_, _, (Option.some.inj h).symm⟩

/-- Evaluating the Selection Engine once both group steps are known. -/
theorem select_eval {all_tracks : List Track} {inputs rest1 rest2 : List String}
    {asel ssel : List Track}
    (h1 : (if (all_tracks.filter (fun t => t.type == TrackType.audio)).isEmpty
        then some (([] : List Track), inputs)
        else run_group (track_map all_tracks)
          (1 + ((all_tracks.filter (fun t => t.type == TrackType.video)).length : Int))
          (1 + ((all_tracks.filter (fun t => t.type == TrackType.video)).length : Int)
            + ((all_tracks.filter (fun t => t.type == TrackType.audio)).length : Int))
          inputs)
        = some (asel, rest1))
    (h2 : (if (all_tracks.filter (fun t => t.type == TrackType.subtitles)).isEmpty
        then some (([] : List Track), rest1)
        else run_group (track_map all_tracks)
          (1 + ((all_tracks.filter (fun t => t.type == TrackType.video)).length : Int)
            + ((all_tracks.filter (fun t => t.type == TrackType.audio)).length : Int))
          (1 + ((all_tracks.filter (fun t => t.type == TrackType.video)).length : Int)
            + ((all_tracks.filter (fun t => t.type == TrackType.audio)).length : Int)
            + ((all_tracks.filter (fun t => t.type == TrackType.subtitles)).length : Int))
          rest1)
        = some (ssel, rest2)) :
    select_tracks_to_keep all_tracks inputs
      = some (List.insertionSort (fun a b => a.id ≤ b.id)
          ((all_tracks.filter (fun t => t.type == TrackType.video)) ++ asel ++ ssel)) := by
  simp only [select_tracks_to_keep, h1, h2]

/-- One audio-group step on an `all`/`none`/empty answer. -/
theorem audio_group_step (all_tracks : List Track) (ia : String) (rest : List String)
    (ha : pyLower (pyStrip ia) = "all" ∨ pyLower (pyStrip ia) = "none" ∨ pyStrip ia = "") :
    run_group (track_map all_tracks)
      (1 + ((all_tracks.filter (fun t => t.type == TrackType.video)).length : Int))
      (1 + ((all_tracks.filter (fun t => t.type == TrackType.video)).length : Int)
        + ((all_tracks.filter (fun t => t.type == TrackType.audio)).length : Int))
      (ia :: rest)
    = some ((if pyLower (pyStrip ia) = "all"
        then all_tracks.filter (fun t => t.type == TrackType.audio) else []), rest) := by
  rcases ha with h | h
  · rw [run_group_parse (parse_all h), audio_extract, if_pos h]
  · have hne : pyLower (pyStrip ia) ≠ "all" := by
      rcases h with h | h
      · rw [h]; decide
      · rw [h]; decide
    rw [run_group_parse (parse_none_or_empty h), if_neg hne]
    rfl

/-- One subtitle-group step on an `all`/`none`/empty answer. -/
theorem subtitle_group_step (all_tracks : List Track) (isub : String) (rest : List String)
    (hs : pyLower (pyStrip isub) = "all" ∨ pyLower (pyStrip isub) = "none" ∨ pyStrip isub = "") :
    run_group (track_map all_tracks)
      (1 + ((all_tracks.filter (fun t => t.type == TrackType.video)).length : Int)
        + ((all_tracks.filter (fun t => t.type == TrackType.audio)).length : Int))
      (1 + ((all_tracks.filter (fun t => t.type == TrackType.video)).length : Int)
        + ((all_tracks.filter (fun t => t.type == TrackType.audio)).length : Int)
        + ((all_tracks.filter (fun t => t.type == TrackType.subtitles)).length : Int))
      (isub :: rest)
    = some ((if pyLower (pyStrip isub) = "all"
        then all_tracks.filter (fun t => t.type == TrackType.subtitles) else []), rest) := by
  rcases hs with h | h
  · rw [run_group_parse (parse_all h), subtitle_extract, if_pos h]
  · have hne : pyLower (pyStrip isub) ≠ "all" := by
      rcases h with h | h
      · rw [h]; decide
      · rw [h]; decide
    rw [run_group_parse (parse_none_or_empty h), if_neg hne]
    rfl

/-- C6: all video tracks are kept with no prompt (no input line is consumed
for them); on a non-empty audio or subtitle group the answer `all` selects
every track of that group and `none` or an empty line selects none of them;
and every returned list is sorted by id (and always contains the video
tracks). -/
theorem C6_selection_engine (all_tracks : List Track) (ia isub : String)
    (ha : pyLower (pyStrip ia) = "all" ∨ pyLower (pyStrip ia) = "none" ∨ pyStrip ia = "")
    (hs : pyLower (pyStrip isub) = "all" ∨ pyLower (pyStrip isub) = "none"
      ∨ pyStrip isub = "") :
    (∃ r, select_tracks_to_keep all_tracks
        ((if (all_tracks.filter (fun t => t.type == TrackType.audio)).isEmpty
            then [] else [ia]) ++
         (if (all_tracks.filter (fun t => t.type == TrackType.subtitles)).isEmpty
            then [] else [isub])) = some r ∧
      r.Perm ((all_tracks.filter (fun t => t.type == TrackType.video)) ++
        (if pyLower (pyStrip ia) = "all"
          then all_tracks.filter (fun t => t.type == TrackType.audio) else []) ++
        (if pyLower (pyStrip isub) = "all"
          then all_tracks.filter (fun t => t.type == TrackType.subtitles) else [])) ∧
      List.Sorted (fun a b : Track => a.id ≤ b.id) r) ∧
    (∀ (inputs : List String) (r : List Track),
      select_tracks_to_keep all_tracks inputs = some r →
      List.Sorted (fun a b : Track => a.id ≤ b.id) r ∧
      (all_tracks.filter (fun t => t.type == TrackType.video)).Subperm r) := by
  constructor
  · by_cases hae : (all_tracks.filter (fun t => t.type == TrackType.audio)).isEmpty = true <;>
      by_cases hse : (all_tracks.filter (fun t => t.type == TrackType.subtitles)).isEmpty
        = true
    · rw [if_pos hae, if_pos hse]
      refine ⟨_, select_eval (if_pos hae) (if_pos hse), ?_,
        List.sorted_insertionSort _ _⟩
      refine (List.perm_insertionSort _ _).trans ?_
      rw [List.isEmpty_iff.mp hae, List.isEmpty_iff.mp hse]
      simp
    · rw [if_pos hae, if_neg hse]
      refine ⟨_, select_eval (if_pos hae)
        (by rw [if_neg hse]; exact subtitle_group_step all_tracks isub [] hs), ?_,
        List.sorted_insertionSort _ _⟩
      refine (List.perm_insertionSort _ _).trans ?_
      rw [List.isEmpty_iff.mp hae]
      simp
    · rw [if_neg hae, if_pos hse]
      refine ⟨_, select_eval
        (by rw [if_neg hae]; exact audio_group_step all_tracks ia [] ha)
        (if_pos hse), ?_, List.sorted_insertionSort _ _⟩
      refine (List.perm_insertionSort _ _).trans ?_
      rw [List.isEmpty_iff.mp hse]
      simp
    · rw [if_neg hae, if_neg hse]
      refine ⟨_, select_eval
        (by rw [if_neg hae]; exact audio_group_step all_tracks ia [isub] ha)
        (by rw [if_neg hse]; exact subtitle_group_step all_tracks isub [] hs), ?_,
        List.sorted_insertionSort _ _⟩
      exact List.perm_insertionSort _ _
  · intro inputs r hsel
    obtain ⟨asel, ssel, rfl⟩ := select_spec hsel
    refine ⟨List.sorted_insertionSort _ _, ?_⟩
    have hsub : List.Sublist (all_tracks.filter (fun t => t.type == TrackType.video))
        ((all_tracks.filter (fun t => t.type == TrackType.video)) ++ asel ++ ssel) :=
      (List.sublist_append_left _ asel).trans (List.sublist_append_left _ ssel)
    exact hsub.subperm.trans (List.perm_insertionSort _ _).symm.subperm

/-! ### Property Editor lemmas (claims C3, C4) -/

theorem countP_set_add {α : Type} (p : α → Bool) :
    ∀ (l : List α) (i : Nat) (x y : α), l[i]? = some y →
      (l.set i x).countP p + (if p y then 1 else 0)
        = l.countP p + (if p x then 1 else 0) := by
  intro l
  induction l with
  | nil => intro i x y h; simp at h
  | cons z zs ih =>
    intro i x y h
    cases i with
    | zero =>
      simp only [List.getElem?_cons_zero, Option.some.injEq] at h
      subst h
      simp only [List.set_cons_zero, List.countP_cons]
      omega
    | succ i' =>
      simp only [List.getElem?_cons_succ] at h
      have := ih i' x y h
      simp only [List.set_cons_succ, List.countP_cons]
      omega

theorem applyNameInput_type (t : Track) (s : String) :
    (applyNameInput t s).type = t.type := by
  simp only [applyNameInput]
  split_ifs <;> rfl

theorem applyNameInput_default (t : Track) (s : String) :
    (applyNameInput t s).props.default_track = t.props.default_track := by
  simp only [applyNameInput]
  split_ifs <;> rfl

theorem countP_clearOthers_eq (ty : TrackType) (idx : Nat) :
    ∀ (i : Nat) (l : List Track),
      (clearOthers ty idx i l).countP
        (fun t => t.type == ty && t.props.default_track == some true)
      = if i ≤ idx then
          (match l[idx - i]? with
           | some t => if t.type == ty && t.props.default_track == some true then 1 else 0
           | none => 0)
        else 0 := by
  intro i l
  induction l generalizing i with
  | nil =>
    simp only [clearOthers, List.countP_nil, List.getElem?_nil]
    split <;> rfl
  | cons t ts ih =>
    simp only [clearOthers, List.countP_cons]
    by_cases hi : i = idx
    · subst hi
      have hhead : (if i ≠ i ∧ t.type = ty ∧ (t.props.default_track).isSome
          then setDefaultProp t false else t) = t := if_neg (fun hc => hc.1 rfl)
      rw [hhead, ih (i + 1), if_neg (by omega : ¬ i + 1 ≤ i), if_pos (Nat.le_refl i),
        Nat.sub_self, List.getElem?_cons_zero]
      simp
    · have hp : ((if i ≠ idx ∧ t.type = ty ∧ (t.props.default_track).isSome
          then setDefaultProp t false else t).type == ty &&
          (if i ≠ idx ∧ t.type = ty ∧ (t.props.default_track).isSome
          then setDefaultProp t false else t).props.default_track == some true) = false := by
        by_cases hcond : i ≠ idx ∧ t.type = ty ∧ (t.props.default_track).isSome
        · rw [if_pos hcond]
          simp [setDefaultProp]
        · rw [if_neg hcond]
          by_cases hty : t.type = ty
          · have hnone : t.props.default_track = none := by
              rcases hd : t.props.default_track with _ | b
              · rfl
              · exact absurd ⟨hi, hty, by rw [hd]; rfl⟩ hcond
            simp [hnone]
          · simp [hty]
      rw [hp, ih (i + 1)]
      by_cases hle : i ≤ idx
      · rw [if_pos (by omega : i + 1 ≤ idx), if_pos hle,
          show idx - i = (idx - (i + 1)) + 1 from by omega, List.getElem?_cons_succ]
        simp
      · rw [if_neg (by omega : ¬ i + 1 ≤ idx), if_neg hle]
        simp

theorem countP_clearOthers_other (ty ty' : TrackType) (idx : Nat) (hne : ty' ≠ ty) :
    ∀ (i : Nat) (l : List Track),
      (clearOthers ty idx i l).countP
        (fun t => t.type == ty' && t.props.default_track == some true)
      = l.countP (fun t => t.type == ty' && t.props.default_track == some true) := by
  intro i l
  induction l generalizing i with
  | nil => rfl
  | cons t ts ih =>
    simp only [clearOthers, List.countP_cons, ih (i + 1)]
    congr 1
    by_cases hcond : i ≠ idx ∧ t.type = ty ∧ (t.props.default_track).isSome
    · rw [if_pos hcond]
      have h1 : (t.type == ty') = false := by
        simp [hcond.2.1, (Ne.symm hne : ty ≠ ty')]
      simp [setDefaultProp, h1]
    · rw [if_neg hcond]

theorem countP_clearOthers_le_one (ty : TrackType) (idx i : Nat) (l : List Track) :
    (clearOthers ty idx i l).countP
      (fun t => t.type == ty && t.props.default_track == some true) ≤ 1 := by
  rw [countP_clearOthers_eq]
  split
  · split
    · split <;> omega
    · omega
  · omega

/-- C4: answering `y` to the default-flag prompt for an audio or subtitle
track leaves exactly one track of that type in the working set with
`default_track == true` - the chosen one; all same-type siblings are
cleared. -/
theorem C4_yes_default_unique (tracks : List Track) (idx : Nat) (inp : String)
    (h : idx < tracks.length)
    (_hty : tracks[idx].type = TrackType.audio ∨ tracks[idx].type = TrackType.subtitles)
    (hy : pyLower (pyStrip inp) = "y") :
    defaultCount (tracks[idx]).type (applyDefaultInput tracks idx inp) = 1 := by
  unfold defaultCount
  simp only [applyDefaultInput, List.getElem?_eq_getElem h]
  rw [if_pos hy, countP_clearOthers_eq, if_pos (Nat.zero_le idx), Nat.sub_zero,
    List.getElem?_set_self (by simpa using h)]
  simp [setDefaultProp]

theorem applyDefaultInput_count_le (ty : TrackType) (tracks : List Track) (idx : Nat)
    (inp : String) (h : defaultCount ty tracks ≤ 1) :
    defaultCount ty (applyDefaultInput tracks idx inp) ≤ 1 := by
  unfold defaultCount at h ⊢
  rcases hsel : tracks[idx]? with _ | sel
  · simp only [applyDefaultInput, hsel]
    exact h
  · simp only [applyDefaultInput, hsel]
    by_cases hy : pyLower (pyStrip inp) = "y"
    · rw [if_pos hy]
      by_cases hty : ty = sel.type
      · subst hty
        exact countP_clearOthers_le_one _ _ _ _
      · rw [countP_clearOthers_other sel.type ty idx hty]
        have hadd := countP_set_add
          (fun t : Track => t.type == ty && t.props.default_track == some true)
          tracks idx (setDefaultProp sel true) sel hsel
        have hbe : (sel.type == ty) = false :=
          beq_eq_false_iff_ne.mpr (fun hh => hty hh.symm)
        have h1 : ((setDefaultProp sel true).type == ty
            && (setDefaultProp sel true).props.default_track == some true) = false := by
          simp [setDefaultProp, hbe]
        have h2 : (sel.type == ty && sel.props.default_track == some true) = false := by
          simp [hbe]
        simp only [h1, h2] at hadd
        omega
    · rw [if_neg hy]
      by_cases hn : pyLower (pyStrip inp) = "n"
      · rw [if_pos hn]
        have hadd := countP_set_add
          (fun t : Track => t.type == ty && t.props.default_track == some true)
          tracks idx (setDefaultProp sel false) sel hsel
        have h1 : ((setDefaultProp sel false).type == ty
            && (setDefaultProp sel false).props.default_track == some true) = false := by
          simp [setDefaultProp]
        simp [h1] at hadd
        split at hadd <;> omega
      · rw [if_neg hn]
        exact h

theorem nameStep_count (ty : TrackType) (tracks : List Track) (idx : Nat)
    (sel : Track) (nameInp : String) (hsel : tracks[idx]? = some sel) :
    defaultCount ty (tracks.set idx (applyNameInput sel nameInp))
      = defaultCount ty tracks := by
  unfold defaultCount
  have hadd := countP_set_add
    (fun t : Track => t.type == ty && t.props.default_track == some true)
    tracks idx (applyNameInput sel nameInp) sel hsel
  have hP : ((applyNameInput sel nameInp).type == ty
      && (applyNameInput sel nameInp).props.default_track == some true)
      = (sel.type == ty && sel.props.default_track == some true) := by
    rw [applyNameInput_type, applyNameInput_default]
  simp only [hP] at hadd
  omega

theorem edit_loop_preserves (ty : TrackType) :
    ∀ (n : Nat) (inputs : List String), inputs.length ≤ n →
      ∀ (tracks result : List Track), edit_loop tracks inputs = some result →
        defaultCount ty tracks ≤ 1 → defaultCount ty result ≤ 1 := by
  intro n
  induction n with
  | zero =>
    intro inputs hlen tracks result hrun
    rw [List.length_eq_zero.mp (Nat.le_zero.mp hlen)] at hrun
    cases hrun
  | succ n ih =>
    intro inputs hlen tracks result hrun hstart
    cases inputs with
    | nil => cases hrun
    | cons cmd rest =>
      simp only [edit_loop] at hrun
      by_cases hf : pyLower (pyStrip cmd) = "f"
      · rw [if_pos hf] at hrun
        cases Option.some.inj hrun
        exact hstart
      · rw [if_neg hf] at hrun
        rcases hint : pyInt? (pyStrip cmd) with _ | nval
        · simp only [hint] at hrun
          exact ih rest (by simpa using Nat.le_of_succ_le_succ (by simpa using hlen))
            tracks result hrun hstart
        · simp only [hint] at hrun
          split at hrun
          · cases rest with
            | nil => cases hrun
            | cons nameInp rest2 =>
              rcases hsel : tracks[(nval - 1).toNat]? with _ | sel
              · simp only [hsel] at hrun
                cases hrun
              · simp only [hsel] at hrun
                split at hrun
                · cases rest2 with
                  | nil => cases hrun
                  | cons defInp rest3 =>
                    refine ih rest3 (by simp at hlen ⊢; omega) _ result hrun ?_
                    refine applyDefaultInput_count_le ty _ _ _ ?_
                    rw [nameStep_count ty tracks _ sel nameInp hsel]
                    exact hstart
                · refine ih rest2 (by simp at hlen ⊢; omega) _ result hrun ?_
                  rw [nameStep_count ty tracks _ sel nameInp hsel]
                  exact hstart
          · exact ih rest (by simp at hlen ⊢; omega) tracks result hrun hstart

def cexAudio1 : Track := ⟨1, TrackType.audio, "aac", ⟨none, some true, none⟩⟩

def cexAudio2 : Track := ⟨2, TrackType.audio, "ac3", ⟨none, some true, none⟩⟩

/-- C3 counterexample: a working set that enters the Property Editor with two
audio tracks flagged default and a user who declines to edit leaves the
phase with two `default_track == true` audio tracks: the editor does not
establish the invariant, it only preserves it. -/
theorem C3_cex_decline_keeps_two_defaults :
    modify_track_properties [cexAudio1, cexAudio2] [""] = some [cexAudio1, cexAudio2] ∧
    1 < defaultCount TrackType.audio [cexAudio1, cexAudio2] := by
  decide

/-- C3 amended: if at entry the working set has at most one
`default_track == true` track of the given type (audio or subtitle), then at
completion of the Property Editor it still has at most one, whatever input
sequence is given (including declining to edit). -/
theorem C3_editor_preserves_invariant (tracks : List Track) (inputs : List String)
    (result : List Track) (ty : TrackType)
    (_hty : ty = TrackType.audio ∨ ty = TrackType.subtitles)
    (hrun : modify_track_properties tracks inputs = some result)
    (hstart : defaultCount ty tracks ≤ 1) :
    defaultCount ty result ≤ 1 := by
  cases inputs with
  | nil =>
    simp only [modify_track_properties] at hrun
    split at hrun
    · cases Option.some.inj hrun
      exact hstart
    · cases hrun
  | cons choice rest =>
    simp only [modify_track_properties] at hrun
    split at hrun
    · cases Option.some.inj hrun
      exact hstart
    · by_cases hy : pyLower (pyStrip choice) = "y"
      · rw [if_pos hy] at hrun
        exact edit_loop_preserves ty rest.length rest (Nat.le_refl _) tracks result
          hrun hstart
      · rw [if_neg hy] at hrun
        cases Option.some.inj hrun
        exact hstart

/-! ### Concrete witnesses -/

def wVideo : Track := ⟨0, TrackType.video, "h264", ⟨some (some "v"), none, some "und"⟩⟩

def wAudio1 : Track := ⟨1, TrackType.audio, "aac", ⟨none, some true, some "eng"⟩⟩

def wAudio2 : Track := ⟨2, TrackType.audio, "ac3", ⟨some none, none, none⟩⟩

def wSub : Track := ⟨3, TrackType.subtitles, "srt", ⟨some (some "subs"), some false, none⟩⟩

/-- Witness for the selection-filter trichotomy: subtitles existed originally
but none survive, so the exclusion flag is present and the inclusion flag
absent. -/
theorem C1_selection_filters_witness :
    exclFlag TrackType.subtitles ∈
        build_mkvmerge_command "in.mkv" "out.mkv" [wVideo, wAudio1] [wVideo, wAudio1, wSub] ∧
    inclFlag TrackType.subtitles ∉
        build_mkvmerge_command "in.mkv" "out.mkv" [wVideo, wAudio1] [wVideo, wAudio1, wSub] :=
  (C1_selection_filters "in.mkv" "out.mkv" [wVideo, wAudio1] [wVideo, wAudio1, wSub]
    (by decide) (by decide) TrackType.subtitles).2.1 (by decide) (by decide)

/-- Witness for the name-clear flag: `wAudio1` has no `track_name` key. -/
theorem C2_track_name_flags_witness :
    AdjPair "--track-name" (natStr wAudio1.id ++ ":")
      (build_mkvmerge_command "in.mkv" "out.mkv" [wVideo, wAudio1] [wVideo, wAudio1]) :=
  (C2_track_name_flags "in.mkv" "out.mkv" [wVideo, wAudio1] [wVideo, wAudio1] wAudio1
    (by decide)).2 rfl

/-- Witness for the preserved invariant on a run that edits track 2's name
(left unchanged) and answers yes to its default prompt. -/
theorem C3_editor_preserves_invariant_witness :
    defaultCount TrackType.audio
      [⟨1, TrackType.audio, "aac", ⟨none, some false, some "eng"⟩⟩,
       ⟨2, TrackType.audio, "ac3", ⟨some none, some true, none⟩⟩] ≤ 1 :=
  C3_editor_preserves_invariant [wAudio1, wAudio2] ["y", "2", "", "y", "f"]
    [⟨1, TrackType.audio, "aac", ⟨none, some false, some "eng"⟩⟩,
     ⟨2, TrackType.audio, "ac3", ⟨some none, some true, none⟩⟩]
    TrackType.audio (Or.inl rfl) (by decide) (by decide)

/-- Witness: answering yes on the first of two defaulted audio tracks leaves
exactly one default. -/
theorem C4_yes_default_unique_witness :
    defaultCount ([cexAudio1, cexAudio2][0]).type
      (applyDefaultInput [cexAudio1, cexAudio2] 0 "y") = 1 :=
  C4_yes_default_unique [cexAudio1, cexAudio2] 0 "y" (by decide) (Or.inl rfl) (by decide)

/-- Witness for the default flag emitted on an explicit `default_track`. -/
theorem C5_default_flag_iff_witness :
    AdjPair "--default-track" (natStr wAudio1.id ++ ":" ++ (if true then "1" else "0"))
      (build_mkvmerge_command "in.mkv" "out.mkv" [wVideo, wAudio1] [wVideo, wAudio1]) :=
  (C5_default_flag_iff "in.mkv" "out.mkv" [wVideo, wAudio1] [wVideo, wAudio1] wAudio1
    (by decide) (by decide) (by decide)).1 true rfl

/-- Witness for a run with `all` on audio and `none` on subtitles. -/
theorem C6_selection_engine_witness :
    ∃ r, select_tracks_to_keep [wVideo, wAudio1, wSub]
        ((if ([wVideo, wAudio1, wSub].filter (fun t => t.type == TrackType.audio)).isEmpty
            then [] else ["all"]) ++
         (if ([wVideo, wAudio1, wSub].filter (fun t => t.type == TrackType.subtitles)).isEmpty
            then [] else ["none"])) = some r ∧
      r.Perm (([wVideo, wAudio1, wSub].filter (fun t => t.type == TrackType.video)) ++
        (if pyLower (pyStrip "all") = "all"
          then [wVideo, wAudio1, wSub].filter (fun t => t.type == TrackType.audio) else []) ++
        (if pyLower (pyStrip "none") = "all"
          then [wVideo, wAudio1, wSub].filter (fun t => t.type == TrackType.subtitles)
          else [])) ∧
      List.Sorted (fun a b : Track => a.id ≤ b.id) r :=
  (C6_selection_engine [wVideo, wAudio1, wSub] "all" "none"
    (Or.inl (by decide)) (Or.inr (Or.inl (by decide)))).1

/-- Witness: the out-of-range answer `99` to a group with display range
`[2, 3)` is rejected whole and the prompt repeats. -/
theorem C7_reject_invalid_witness :
    run_group (track_map [wAudio1]) 2 3 ["99"] = run_group (track_map [wAudio1]) 2 3 [] :=
  C7_reject_invalid (track_map [wAudio1]) 2 3 "99" [] (by decide) (by decide) (by decide)
    (Or.inr ⟨[99], by decide, 99, by decide, by decide⟩)

def wM : Int → Option Track := fun d => if d = 2 then some cexAudio1 else none

/-- Witness: the answer `2,2` selects the track mapped to display number 2
twice, and the duplicated final track's id is listed twice in the inclusion
filter value. -/
theorem C9_duplicate_selection_witness :
    (run_group wM 2 3 ["2,2"] = some (([2, 2] : List Int).filterMap wM, []) ∧
      (([2, 2] : List Int).filterMap wM).count cexAudio1 = ([2, 2] : List Int).count 2) ∧
    (2 ≤ (([cexAudio1, cexAudio1].filter (fun t => t.type == cexAudio1.type)).map
        (fun t => natStr t.id)).count (natStr cexAudio1.id) ∧
      AdjPair (inclFlag cexAudio1.type)
        (pyJoinComma (([cexAudio1, cexAudio1].filter (fun t => t.type == cexAudio1.type)).map
          (fun t => natStr t.id)))
        (build_mkvmerge_command "in.mkv" "out.mkv" [cexAudio1, cexAudio1] [])) :=
  ⟨C9_duplicate_selection.1 wM 2 3 "2,2" [] [2, 2] 2 cexAudio1 (by decide) (by decide)
      (fun d' h => by
        by_cases hd : d' = (2 : Int)
        · exact hd
        · exfalso
          simp only [wM, if_neg hd] at h
          exact Option.noConfusion h),
    C9_duplicate_selection.2 [cexAudio1, cexAudio1] [] cexAudio1 "in.mkv" "out.mkv"
      (by decide) (by decide)⟩

/-- Witness: with `wAudio2`'s `track_name` present but null, the only
`--track-name` pair in the command is the one for track 0, whose value does
not start with `2:`. -/
theorem C10_null_name_silent_witness :
    ¬ List.IsPrefix ((natStr wAudio2.id ++ ":").data)
      ((natStr wVideo.id ++ ":" ++ "v").data) :=
  C10_null_name_silent "in.mkv" "out.mkv" [wVideo, wAudio2] [wVideo] wAudio2 (by decide) rfl
    (by decide) (by decide) (natStr wVideo.id ++ ":" ++ "v")
    ⟨["mkvmerge", "-q", "-o", "out.mkv", "--video-tracks", "0", "--audio-tracks", "2"],
      ["in.mkv"], by decide⟩
